import Mathlib

/-!
Verification of the CSV decoding and record-filtering core of the
`hola-web` page component (`src/app/page.tsx`).

The decoder (`parseCSV`) is a character-by-character state machine with a
single `inQuotes` flag, followed by a row-to-record projection keyed by the
trimmed header names.  The filter (`filtered`) keeps the records matching an
optional case-insensitive title substring and an optional date range whose
upper bound is widened to the end of its calendar day.

JavaScript objects are modelled as insertion-ordered association lists with
last-write-wins key assignment; JavaScript `Date` values are modelled as a
local calendar day index paired with a millisecond offset inside that day,
compared through their total millisecond count.  The environment's
`new Date(string)` parser is abstracted as a parameter
`P : String → Option JSDate` (`none` standing for an invalid date).
-/

/-! ## The CSV scanner (`parseCSV`, lines 6–47: the character loop) -/

/-- The character loop of `parseCSV`: one character at a time with one
character of lookahead, an `inQuotes` flag, the cell and row accumulators and
the list of completed rows.  At end of input the pending cell/row is flushed
when non-empty. -/
def scanCSV : List Char → Bool → String → List String → List (List String) → List (List String)
  | [], _, cell, row, rows =>
      if cell.length > 0 || row.length > 0 then rows ++ [row ++ [cell]] else rows
  | '"' :: '"' :: rest2, true, cell, row, rows => scanCSV rest2 true (cell.push '"') row rows
  | '"' :: rest, true, cell, row, rows => scanCSV rest false cell row rows
  | c :: rest, true, cell, row, rows => scanCSV rest true (cell.push c) row rows
  | c :: rest, false, cell, row, rows =>
      if c = '"' then scanCSV rest true cell row rows
      else if c = ',' then scanCSV rest false "" (row ++ [cell]) rows
      else if c = '\n' then scanCSV rest false "" [] (rows ++ [row ++ [cell]])
      else if c = '\r' then scanCSV rest false cell row rows
      else scanCSV rest false (cell.push c) row rows

/-- JavaScript `s.trim()`: strip leading and trailing whitespace, modelled at
the character level. -/
def jsTrim (s : String) : String :=
  String.mk (((s.toList.dropWhile Char.isWhitespace).reverse.dropWhile
    Char.isWhitespace).reverse)

/-- JavaScript `s.toLowerCase()`, modelled at the character level. -/
def jsToLower (s : String) : String :=
  String.mk (s.toList.map Char.toLower)

/-! ## Records (JavaScript objects as insertion-ordered association lists) -/

/-- A decoded record: string keys mapping to string values, in insertion
order. -/
abbrev Rec := List (String × String)

/-- Property lookup `obj[k]`: the value of the first (and, by construction,
only) entry with key `k`, or `none` when the key is absent. -/
def getKey : Rec → String → Option String
  | [], _ => none
  | p :: ps, k => if p.1 = k then some p.2 else getKey ps k

/-- Whether the object already has the key `k`. -/
def hasKey : Rec → String → Bool
  | [], _ => false
  | p :: ps, k => if p.1 = k then true else hasKey ps k

/-- Property assignment `obj[k] = v`: overwrite in place when the key exists,
otherwise append a new entry (JavaScript insertion-order semantics). -/
def setKey (r : Rec) (k v : String) : Rec :=
  if hasKey r k then r.map (fun p => if p.1 = k then (k, v) else p)
  else r ++ [(k, v)]

/-- The key sequence of an object. -/
def keys (r : Rec) : List String := r.map Prod.fst

/-- `headers.forEach((h, idx) => obj[h.trim()] = (cols[idx] ?? "").trim())`
unrolled as a recursion over the remaining headers, carrying the running
index. -/
def assignCols (cols : List String) (obj : Rec) (idx : Nat) : List String → Rec
  | [] => obj
  | h :: hs => assignCols cols (setKey obj (jsTrim h) (jsTrim (cols.getD idx ""))) (idx + 1) hs

/-- Row-to-record projection of `parseCSV` (lines 54–60). -/
def rowToRecord (headers cols : List String) : Rec :=
  assignCols cols [] 0 headers

/-- `parseCSV` (lines 6–61): scan the text into rows, take the first row as
headers, drop data rows whose cells are all empty, and project the rest to
records. -/
def parseCSV (csvText : String) : List Rec :=
  match scanCSV csvText.toList false "" [] [] with
  | [] => []
  | headers :: dataRows =>
      (dataRows.filter (fun r => r.length > 0 && r.any (fun v => v != ""))).map
        (fun cols => rowToRecord headers cols)

/-! ## Dates (JavaScript `Date` under a fixed local offset) -/

/-- A valid JavaScript `Date` instant, decomposed into its local calendar day
and the millisecond offset inside that day. -/
structure JSDate where
  day : Int
  msOfDay : Nat
  ms_lt : msOfDay < 86400000

/-- Epoch milliseconds of the instant; `Date` comparison and copying go
through this value. -/
def JSDate.toMillis (d : JSDate) : Int :=
  d.day * 86400000 + d.msOfDay

/-- `a < b` on dates (JavaScript relational comparison via `valueOf`). -/
def dateLt (a b : JSDate) : Bool :=
  a.toMillis < b.toMillis

/-- `const endOfDay = new Date(e); endOfDay.setHours(23, 59, 59, 999)`:
the same local calendar day at 23:59:59.999. -/
def endOfDay (d : JSDate) : JSDate :=
  ⟨d.day, 86399999, by norm_num⟩

/-- `parseDate` (lines 96–101): `null` for a missing or empty value, else the
environment's date parse `P` (`none` when `new Date` yields an invalid
date). -/
def parseDate (P : String → Option JSDate) (value : Option String) : Option JSDate :=
  match value with
  | none => none
  | some v => if v = "" then none else P v

/-! ## The filter (`filtered`, lines 202–234) -/

/-- JavaScript `a || b` on possibly-missing strings: keep `a` when it is
present and non-empty (truthy), else fall through to `b`. -/
def jsOrStr (a b : Option String) : Option String :=
  match a with
  | some v => if v = "" then b else some v
  | none => b

/-- `row["Evento/titulo"] || row["Evento"] || row["titulo"]` (line 207). -/
def titleOf (r : Rec) : Option String :=
  jsOrStr (getKey r "Evento/titulo") (jsOrStr (getKey r "Evento") (getKey r "titulo"))

/-- First-parse fallback for the start instant (lines 208–211):
`parseDate(row["Timestamp Inicio"]) || parseDate(row["Timestamp inicio"]) ||
parseDate(row["Inicio"])`; a `Date` object is always truthy, so this is the
first successful parse. -/
def startOf (P : String → Option JSDate) (r : Rec) : Option JSDate :=
  match parseDate P (getKey r "Timestamp Inicio") with
  | some d => some d
  | none =>
      match parseDate P (getKey r "Timestamp inicio") with
      | some d => some d
      | none => parseDate P (getKey r "Inicio")

/-- `pat` occurs as a leading run of `hay` (character-level comparison). -/
def leadMatch : List Char → List Char → Bool
  | [], _ => true
  | _ :: _, [] => false
  | p :: ps, h :: hs => p == h && leadMatch ps hs

/-- `pat` occurs contiguously somewhere in `hay`. -/
def subMatch : List Char → List Char → Bool
  | pat, [] => leadMatch pat []
  | pat, h :: hs => leadMatch pat (h :: hs) || subMatch pat hs

/-- JavaScript `hay.includes(pat)`. -/
def jsIncludes (hay pat : String) : Bool :=
  subMatch pat.toList hay.toList

/-- The text condition (lines 214–216): vacuously true for an empty query,
else a case-insensitive substring test against the resolved title (empty
string when unresolved). -/
def matchesText (query : String) (r : Rec) : Bool :=
  if query = "" then true
  else jsIncludes (jsToLower ((titleOf r).getD "")) (jsToLower query)

/-- The date-range condition (lines 219–230): vacuously true with no bounds;
a record with no resolvable start instant fails when any bound is set; the
lower bound excludes instants strictly before it; the upper bound is widened
to 23:59:59.999 of its day and excludes instants strictly after that. -/
def inRange (s e t : Option JSDate) : Bool :=
  match s, e with
  | none, none => true
  | _, _ =>
      match t with
      | none => false
      | some ts =>
          if (match s with | some sv => dateLt ts sv | none => false) then false
          else
            match e with
            | some ev => if dateLt (endOfDay ev) ts then false else true
            | none => true

/-- `filtered` (lines 202–234): keep the records satisfying both the text
condition and the date condition, in input order. -/
def filtered (P : String → Option JSDate) (data : List Rec)
    (s e : Option JSDate) (query : String) : List Rec :=
  data.filter (fun row => matchesText query row && inRange s e (startOf P row))

/-! ## Spec-side candidate-list resolution (for the refinement claim) -/

/-- Candidate keys for the title, in priority order. -/
def titleCandidates : List String := ["Evento/titulo", "Evento", "titulo"]

/-- Candidate keys for the start instant, in priority order. -/
def startCandidates : List String := ["Timestamp Inicio", "Timestamp inicio", "Inicio"]

/-- Modelled from the spec: the first non-empty value among the candidate
keys, in priority order; missing and empty values are skipped. -/
def firstNonEmptySpec (r : Rec) : List String → Option String
  | [] => none
  | k :: ks =>
      match getKey r k with
      | some v => if v = "" then firstNonEmptySpec r ks else some v
      | none => firstNonEmptySpec r ks

/-- Modelled from the spec: the first candidate value that parses as a valid
date; values that fail to parse are treated as absent. -/
def firstParsedSpec (P : String → Option JSDate) (r : Rec) : List String → Option JSDate
  | [] => none
  | k :: ks =>
      match parseDate P (getKey r k) with
      | some d => some d
      | none => firstParsedSpec P r ks

/-! ## Lemmas about object key assignment -/

theorem hasKey_iff_mem (r : Rec) (k : String) : hasKey r k = true ↔ k ∈ keys r := by
  induction r with
  | nil => simp [hasKey, keys]
  | cons p ps ih =>
    by_cases hp : p.1 = k
    · simp [hasKey, keys, hp]
    · have h1 : hasKey (p :: ps) k = hasKey ps k := by simp [hasKey, hp]
      have h2 : k ∈ keys (p :: ps) ↔ k = p.1 ∨ k ∈ keys ps := by simp [keys]
      rw [h1, ih, h2]
      constructor
      · exact Or.inr
      · rintro (h | h)
        · exact absurd h.symm hp
        · exact h

theorem getKey_mapSet_self (r : Rec) (k v : String) (hk : hasKey r k = true) :
    getKey (r.map (fun p => if p.1 = k then (k, v) else p)) k = some v := by
  induction r with
  | nil => simp [hasKey] at hk
  | cons p ps ih =>
    by_cases hp : p.1 = k
    · simp [getKey, hp]
    · have hk' : hasKey ps k = true := by simpa [hasKey, hp] using hk
      simp [getKey, hp, ih hk']

theorem getKey_appendSingle_self (r : Rec) (k v : String) :
    getKey r k = none → getKey (r ++ [(k, v)]) k = some v := by
  induction r with
  | nil => intro _; simp [getKey]
  | cons p ps ih =>
    intro h
    by_cases hp : p.1 = k
    · simp [getKey, hp] at h
    · have h' : getKey ps k = none := by simpa [getKey, hp] using h
      simp [getKey, hp, ih h']

theorem getKey_none_of_not_hasKey (r : Rec) (k : String) (hk : hasKey r k = false) :
    getKey r k = none := by
  induction r with
  | nil => simp [getKey]
  | cons p ps ih =>
    by_cases hp : p.1 = k
    · simp [hasKey, hp] at hk
    · have hk' : hasKey ps k = false := by simpa [hasKey, hp] using hk
      simp [getKey, hp, ih hk']

theorem getKey_setKey_self (r : Rec) (k v : String) :
    getKey (setKey r k v) k = some v := by
  unfold setKey
  split
  next hk => exact getKey_mapSet_self r k v hk
  next hk =>
    exact getKey_appendSingle_self r k v
      (getKey_none_of_not_hasKey r k (Bool.not_eq_true _ ▸ hk))

theorem getKey_mapSet_ne (r : Rec) (k v k' : String) (h : k' ≠ k) :
    getKey (r.map (fun p => if p.1 = k then (k, v) else p)) k' = getKey r k' := by
  induction r with
  | nil => simp
  | cons p ps ih =>
    by_cases hp : p.1 = k
    · simp [getKey, hp, Ne.symm h, ih]
    · simp [getKey, hp, ih]

theorem getKey_appendSingle_ne (r : Rec) (k v k' : String) (h : k' ≠ k) :
    getKey (r ++ [(k, v)]) k' = getKey r k' := by
  induction r with
  | nil => simp [getKey, Ne.symm h]
  | cons p ps ih => simp [getKey, ih]

theorem getKey_setKey_ne (r : Rec) (k v k' : String) (h : k' ≠ k) :
    getKey (setKey r k v) k' = getKey r k' := by
  unfold setKey
  split
  · exact getKey_mapSet_ne r k v k' h
  · exact getKey_appendSingle_ne r k v k' h

theorem keys_mapSet (r : Rec) (k v : String) :
    keys (r.map (fun p => if p.1 = k then (k, v) else p)) = keys r := by
  induction r with
  | nil => rfl
  | cons p ps ih =>
    by_cases hp : p.1 = k
    · simp [keys, hp] at ih ⊢; simpa [keys] using ih
    · simp [keys, hp] at ih ⊢; simpa [keys] using ih

theorem keys_setKey_found (r : Rec) (k v : String) (hk : hasKey r k = true) :
    keys (setKey r k v) = keys r := by
  simp [setKey, hk, keys_mapSet]

theorem keys_setKey_fresh (r : Rec) (k v : String) (hk : hasKey r k = false) :
    keys (setKey r k v) = keys r ++ [k] := by
  simp [setKey, hk, keys]

theorem mem_keys_setKey (r : Rec) (k0 v k : String) :
    k ∈ keys (setKey r k0 v) ↔ k ∈ keys r ∨ k = k0 := by
  by_cases hk : hasKey r k0 = true
  · rw [keys_setKey_found r k0 v hk]
    constructor
    · exact Or.inl
    · rintro (h | rfl)
      · exact h
      · exact (hasKey_iff_mem r k).1 hk
  · rw [keys_setKey_fresh r k0 v (Bool.not_eq_true _ ▸ hk)]
    simp

/-! ## Lemmas about the row-to-record projection -/

theorem assignCols_getKey_notMem (cols hs : List String) (obj : Rec) (idx : Nat)
    (k : String) (h : k ∉ hs.map jsTrim) :
    getKey (assignCols cols obj idx hs) k = getKey obj k := by
  induction hs generalizing obj idx with
  | nil => rfl
  | cons h0 hs' ih =>
    simp only [List.map_cons, List.mem_cons, not_or] at h
    rw [assignCols, ih _ _ h.2, getKey_setKey_ne _ _ _ _ h.1]

theorem mem_keys_assignCols (cols hs : List String) (obj : Rec) (idx : Nat) (k : String) :
    k ∈ keys (assignCols cols obj idx hs) ↔ k ∈ keys obj ∨ k ∈ hs.map jsTrim := by
  induction hs generalizing obj idx with
  | nil => simp [assignCols]
  | cons h0 hs' ih =>
    rw [assignCols, ih]
    simp [mem_keys_setKey]
    tauto

theorem keys_assignCols_nodup (cols hs : List String) (obj : Rec) (idx : Nat)
    (hnd : (hs.map jsTrim).Nodup) (hfresh : ∀ h ∈ hs, jsTrim h ∉ keys obj) :
    keys (assignCols cols obj idx hs) = keys obj ++ hs.map jsTrim := by
  induction hs generalizing obj idx with
  | nil => simp [assignCols]
  | cons h0 hs' ih =>
    rw [assignCols]
    have hfresh0 : jsTrim h0 ∉ keys obj := hfresh h0 (by simp)
    have hk : hasKey obj (jsTrim h0) = false := by
      rw [Bool.eq_false_iff]
      intro hc
      exact hfresh0 ((hasKey_iff_mem _ _).1 hc)
    have hnd' : (hs'.map jsTrim).Nodup := (List.nodup_cons.1 (by simpa using hnd)).2
    have h0notin : jsTrim h0 ∉ hs'.map jsTrim := (List.nodup_cons.1 (by simpa using hnd)).1
    have hfresh' : ∀ h ∈ hs',
        jsTrim h ∉ keys (setKey obj (jsTrim h0) (jsTrim (cols.getD idx ""))) := by
      intro h hmem
      rw [keys_setKey_fresh _ _ _ hk]
      simp only [List.mem_append, List.mem_singleton, not_or]
      refine ⟨hfresh h (by simp [hmem]), ?_⟩
      intro heq
      exact h0notin (heq ▸ List.mem_map_of_mem _ hmem)
    rw [ih _ _ hnd' hfresh', keys_setKey_fresh _ _ _ hk]
    simp

theorem assignCols_getKey_at (cols hs : List String) (obj : Rec) (idx : Nat)
    (hnd : (hs.map jsTrim).Nodup) :
    ∀ j, j < hs.length →
      getKey (assignCols cols obj idx hs) (jsTrim (hs.getD j "")) =
        some (jsTrim (cols.getD (idx + j) "")) := by
  induction hs generalizing obj idx with
  | nil => intro j hj; simp at hj
  | cons h0 hs' ih =>
    intro j hj
    have hnd' : (hs'.map jsTrim).Nodup := (List.nodup_cons.1 (by simpa using hnd)).2
    have h0notin : jsTrim h0 ∉ hs'.map jsTrim := (List.nodup_cons.1 (by simpa using hnd)).1
    cases j with
    | zero =>
      rw [assignCols]
      simp only [List.getD_cons_zero, Nat.add_zero]
      rw [assignCols_getKey_notMem _ _ _ _ _ h0notin, getKey_setKey_self]
    | succ j' =>
      rw [assignCols]
      have hj' : j' < hs'.length := by simpa using hj
      have := ih (setKey obj (jsTrim h0) (jsTrim (cols.getD idx ""))) (idx + 1) hnd' j' hj'
      simpa [Nat.add_assoc, Nat.add_comm 1 j'] using this

theorem keys_rowToRecord_nodup (headers cols : List String)
    (hnd : (headers.map jsTrim).Nodup) :
    keys (rowToRecord headers cols) = headers.map jsTrim := by
  have := keys_assignCols_nodup cols headers [] 0 hnd (by intro h _; simp [keys])
  simpa [rowToRecord, keys] using this

theorem length_rowToRecord_nodup (headers cols : List String)
    (hnd : (headers.map jsTrim).Nodup) :
    (rowToRecord headers cols).length = headers.length := by
  have h := keys_rowToRecord_nodup headers cols hnd
  have : (keys (rowToRecord headers cols)).length = (headers.map jsTrim).length := by rw [h]
  simpa [keys] using this

theorem mem_parseCSV (csvText : String) (headers : List String)
    (dataRows : List (List String))
    (hscan : scanCSV csvText.toList false "" [] [] = headers :: dataRows) (r : Rec) :
    r ∈ parseCSV csvText ↔
      ∃ cols, cols ∈ dataRows ∧
        (cols.length > 0 && cols.any (fun v => v != "")) = true ∧
        r = rowToRecord headers cols := by
  unfold parseCSV
  rw [hscan]
  simp only [List.mem_map, List.mem_filter]
  constructor
  · rintro ⟨cols, ⟨hmem, hkeep⟩, rfl⟩
    exact ⟨cols, hmem, hkeep, rfl⟩
  · rintro ⟨cols, hmem, hkeep, rfl⟩
    exact ⟨cols, ⟨hmem, hkeep⟩, rfl⟩

/-! ## The claims -/

/-- Claim C1: inside a quoted field, a double-quote immediately followed by
another double-quote contributes one literal double-quote to the cell and
consumes both characters; a lone double-quote ends the quoted field; every
other character (comma, line feed and carriage return included) becomes
literal cell content; and under headers `Col1,Col2` the data row
`"a,b","c""d"` decodes to the single record mapping `Col1` to `a,b` and
`Col2` to `c"d`. -/
theorem C1_quoted_field_machine :
    (∀ rest cell row rows, scanCSV ('"' :: '"' :: rest) true cell row rows =
        scanCSV rest true (cell.push '"') row rows)
  ∧ (∀ rest cell row rows, rest.head? ≠ some '"' →
        scanCSV ('"' :: rest) true cell row rows = scanCSV rest false cell row rows)
  ∧ (∀ c rest cell row rows, c ≠ '"' →
        scanCSV (c :: rest) true cell row rows = scanCSV rest true (cell.push c) row rows)
  ∧ parseCSV "Col1,Col2\n\"a,b\",\"c\"\"d\"" = [[("Col1", "a,b"), ("Col2", "c\"d")]] := by
  refine ⟨fun rest cell row rows => rfl, ?_, ?_, by decide⟩
  · intro rest cell row rows h
    cases rest with
    | nil => rfl
    | cons r rs =>
      have hr : r ≠ '"' := fun he => h (by simp [he])
      simp [scanCSV, hr]
  · intro c rest cell row rows hc
    simp [scanCSV, hc]

theorem C1_witness :
    scanCSV ['"', 'a'] true "" [] [] = scanCSV ['a'] false "" [] []
  ∧ scanCSV ['x'] true "" [] [] = scanCSV [] true ("".push 'x') [] [] :=
  ⟨C1_quoted_field_machine.2.1 ['a'] "" [] [] (by decide),
   C1_quoted_field_machine.2.2.1 'x' [] "" [] [] (by decide)⟩

/-- Claim C6: a carriage return outside quoted fields is discarded and
contributes nothing, so CRLF and bare LF line endings decode identically;
both sample inputs yield the single record `{H1: q1, H2: q2}`. -/
theorem C6_crlf_lf_identical :
    (∀ rest cell row rows, scanCSV ('\r' :: rest) false cell row rows =
        scanCSV rest false cell row rows)
  ∧ parseCSV "H1,H2\r\nq1,q2\r\n" = parseCSV "H1,H2\nq1,q2\n"
  ∧ parseCSV "H1,H2\nq1,q2\n" = [[("H1", "q1"), ("H2", "q2")]] :=
  ⟨fun rest cell row rows => rfl, by decide, by decide⟩

/-- Claim C7: at end of input, a pending cell with content or a row that
already holds a completed cell is flushed as a final row even without a
trailing line terminator; `"C1,C2\nval1,val2"` decodes to
`[{C1: val1, C2: val2}]`. -/
theorem C7_eof_flush :
    (∀ q cell row rows, (cell.length > 0 || row.length > 0) = true →
        scanCSV [] q cell row rows = rows ++ [row ++ [cell]])
  ∧ parseCSV "C1,C2\nval1,val2" = [[("C1", "val1"), ("C2", "val2")]] := by
  refine ⟨?_, by decide⟩
  intro q cell row rows h
  simp [scanCSV, h]

theorem C7_witness : scanCSV [] false "x" [] [] = [["x"]] :=
  C7_eof_flush.1 false "x" [] [] (by decide)

/-- Claim C8: every data row whose cells are all empty is dropped from the
output; a header-only document decodes to the empty sequence, and so does the
empty input. -/
theorem C8_blank_rows_dropped (csvText : String) (headers : List String)
    (dataRows : List (List String))
    (hscan : scanCSV csvText.toList false "" [] [] = headers :: dataRows) :
    parseCSV csvText =
      (dataRows.filter (fun cols => decide (∃ v ∈ cols, v ≠ ""))).map
        (fun cols => rowToRecord headers cols)
  ∧ parseCSV "A,B\n" = [] ∧ parseCSV "" = [] := by
  refine ⟨?_, by decide, by decide⟩
  unfold parseCSV
  rw [hscan]
  dsimp only
  congr 1
  apply List.filter_congr
  intro cols _
  cases cols with
  | nil => simp
  | cons a as =>
    rw [Bool.eq_iff_iff]
    simp [List.any_eq_true, bne_iff_ne]

theorem C8_witness :
    parseCSV "A,B\n,\nx,y" =
      ([["", ""], ["x", "y"]].filter (fun cols => decide (∃ v ∈ cols, v ≠ ""))).map
        (fun cols => rowToRecord ["A", "B"] cols)
  ∧ parseCSV "A,B\n" = [] ∧ parseCSV "" = [] :=
  C8_blank_rows_dropped "A,B\n,\nx,y" ["A", "B"] [["", ""], ["x", "y"]] (by decide)

/-- Claim C10: cells beyond the last header column are silently ignored: a
record's keys are exactly the trimmed header names, and the sample row with
three cells under two headers decodes with no key for the extra cell. -/
theorem C10_extra_cells_ignored (headers cols : List String) (k : String) :
    (k ∈ keys (rowToRecord headers cols) ↔ k ∈ headers.map jsTrim)
  ∧ parseCSV "A,B\n1,2,3" = [[("A", "1"), ("B", "2")]] := by
  constructor
  · have h := mem_keys_assignCols cols headers [] 0 k
    simpa [rowToRecord, keys] using h
  · decide

/-- Claim C3, as frozen, is false: under the duplicate header row `A,A` the
single data row of `A,A\n1,2` produces a record with one key, not two
(last-write-wins key assignment collapses equal trimmed header names). -/
theorem C3_counterexample :
    scanCSV "A,A\n1,2".toList false "" [] [] = [["A", "A"], ["1", "2"]]
  ∧ parseCSV "A,A\n1,2" = [[("A", "2")]]
  ∧ ¬ ∀ r ∈ parseCSV "A,A\n1,2", r.length = 2 := by
  refine ⟨by decide, by decide, ?_⟩
  decide

/-- Claim C3 (amended): when the trimmed header names are pairwise distinct,
every record produced by decode has exactly as many keys as the header row
has columns, every trimmed header name is bound to some value, and a data
row with fewer cells than the header maps each missing trailing header key
to the empty string, never to an absent key. -/
theorem C3_record_shape (csvText : String) (headers : List String)
    (dataRows : List (List String))
    (hscan : scanCSV csvText.toList false "" [] [] = headers :: dataRows)
    (hnd : (headers.map jsTrim).Nodup) :
    (∀ r ∈ parseCSV csvText, r.length = headers.length)
  ∧ (∀ r ∈ parseCSV csvText, ∀ h ∈ headers, ∃ v, getKey r (jsTrim h) = some v)
  ∧ (∀ cols ∈ dataRows, ∀ j, j < headers.length → cols.length ≤ j →
        getKey (rowToRecord headers cols) (jsTrim (headers.getD j "")) = some "") := by
  refine ⟨?_, ?_, ?_⟩
  · intro r hr
    obtain ⟨cols, _, _, rfl⟩ := (mem_parseCSV csvText headers dataRows hscan r).1 hr
    exact length_rowToRecord_nodup headers cols hnd
  · intro r hr h hmem
    obtain ⟨cols, _, _, rfl⟩ := (mem_parseCSV csvText headers dataRows hscan r).1 hr
    obtain ⟨i, hi, rfl⟩ := List.mem_iff_getElem.mp hmem
    have hgd : headers.getD i "" = headers[i] := List.getD_eq_getElem headers "" hi
    have := assignCols_getKey_at cols headers [] 0 hnd i hi
    rw [hgd] at this
    exact ⟨jsTrim (cols.getD (0 + i) ""), this⟩
  · intro cols _ j hj hlen
    have := assignCols_getKey_at cols headers [] 0 hnd j hj
    rw [List.getD_eq_default cols "" (by omega)] at this
    simpa [rowToRecord, jsTrim] using this

theorem C3_witness :
    ((∀ r ∈ parseCSV "A,B\nx", r.length = (["A", "B"] : List String).length)
  ∧ (∀ r ∈ parseCSV "A,B\nx", ∀ h ∈ (["A", "B"] : List String),
        ∃ v, getKey r (jsTrim h) = some v)
  ∧ (∀ cols ∈ ([["x"]] : List (List String)),
        ∀ j, j < (["A", "B"] : List String).length → cols.length ≤ j →
          getKey (rowToRecord ["A", "B"] cols) (jsTrim ((["A", "B"] : List String).getD j ""))
            = some "")) :=
  C3_record_shape "A,B\nx" ["A", "B"] [["x"]] (by decide) (by decide)

/-- Claim C2: with an upper date bound set, the bound is widened to
23:59:59.999 local time of its calendar day before the comparison: a record
whose start instant falls at 23:59:00 of the bound's date satisfies the date
condition, one at 00:01 of the following date is excluded, and in general
instants strictly after the widened bound are excluded while all others pass
the upper-bound check. -/
theorem C2_upper_bound_widened (s : Option JSDate) (e t : JSDate)
    (hlow : ∀ sv, s = some sv → dateLt t sv = false) :
    (t.day = e.day → t.msOfDay = 86340000 → inRange s (some e) (some t) = true)
  ∧ (t.day = e.day + 1 → t.msOfDay = 60000 → inRange s (some e) (some t) = false)
  ∧ (dateLt (endOfDay e) t = true → inRange s (some e) (some t) = false)
  ∧ (dateLt (endOfDay e) t = false → inRange s (some e) (some t) = true) := by
  have core : inRange s (some e) (some t) = !(dateLt (endOfDay e) t) := by
    cases s with
    | none =>
      simp only [inRange]
      cases h : dateLt (endOfDay e) t <;> simp
    | some sv =>
      simp only [inRange, hlow sv rfl]
      cases h : dateLt (endOfDay e) t <;> simp
  refine ⟨?_, ?_, ?_, ?_⟩
  · intro hd hms
    rw [core]
    have h : dateLt (endOfDay e) t = false := by
      simp only [dateLt, endOfDay, JSDate.toMillis, hd, hms, decide_eq_false_iff_not]
      omega
    simp [h]
  · intro hd hms
    rw [core]
    have h : dateLt (endOfDay e) t = true := by
      simp only [dateLt, endOfDay, JSDate.toMillis, hd, hms, decide_eq_true_eq]
      omega
    simp [h]
  · intro h; simp [core, h]
  · intro h; simp [core, h]

theorem C2_witness :
    inRange none (some ⟨0, 0, by norm_num⟩) (some ⟨0, 86340000, by norm_num⟩) = true
  ∧ inRange none (some ⟨0, 0, by norm_num⟩) (some ⟨1, 60000, by norm_num⟩) = false :=
  ⟨(C2_upper_bound_widened none ⟨0, 0, by norm_num⟩ ⟨0, 86340000, by norm_num⟩
      (fun sv h => nomatch h)).1 rfl rfl,
   (C2_upper_bound_widened none ⟨0, 0, by norm_num⟩ ⟨1, 60000, by norm_num⟩
      (fun sv h => nomatch h)).2.1 rfl rfl⟩

/-- Claim C4: when a date bound is set, every record with no resolvable start
instant is rejected; with only a lower bound, a resolvable record is rejected
exactly when its instant is strictly before the bound; with neither bound the
date condition always holds, so a search-text-only filter never excludes a
record based on dates. -/
theorem C4_lower_bound_and_defaults (P : String → Option JSDate)
    (data : List Rec) (query : String) (sv t : JSDate) :
    (∀ s e : Option JSDate, s.isSome ∨ e.isSome → inRange s e none = false)
  ∧ inRange (some sv) none (some t) = !(dateLt t sv)
  ∧ (∀ topt, inRange none none topt = true)
  ∧ filtered P data none none query = data.filter (fun r => matchesText query r) := by
  refine ⟨?_, ?_, fun topt => rfl, ?_⟩
  · intro s e h
    match s, e with
    | some sv', e => rfl
    | none, some ev => rfl
    | none, none => simp at h
  · cases h : dateLt t sv <;> simp [inRange, h]
  · unfold filtered
    apply List.filter_congr
    intro r _
    simp [inRange]

theorem C4_witness :
    inRange (some ⟨0, 0, by norm_num⟩) none none = false :=
  (C4_lower_bound_and_defaults (fun _ => none) [] "" ⟨0, 0, by norm_num⟩
    ⟨0, 0, by norm_num⟩).1 (some ⟨0, 0, by norm_num⟩) none (Or.inl rfl)

/-- Claim C5: filtering with all criteria absent returns the input sequence
unchanged and in order, and applying the empty-criteria filter twice equals
applying it once. -/
theorem C5_empty_criteria_identity (P : String → Option JSDate) (data : List Rec) :
    filtered P data none none "" = data
  ∧ filtered P (filtered P data none none "") none none "" = filtered P data none none "" := by
  have h : ∀ d : List Rec, filtered P d none none "" = d := by
    intro d
    unfold filtered
    apply List.filter_eq_self.mpr
    intro r _
    simp [matchesText, inRange]
  exact ⟨h data, by rw [h, h]⟩

/-- Claim C9: the filter resolves the title as the first non-empty value
among `Evento/titulo`, `Evento`, `titulo` in priority order (empty string
when none qualifies), and the start instant as the first value among
`Timestamp Inicio`, `Timestamp inicio`, `Inicio` that parses as a valid
date; missing or unparseable candidate values are skipped, never an error. -/
theorem C9_fallback_resolution (P : String → Option JSDate) (r : Rec) :
    (titleOf r).getD "" = (firstNonEmptySpec r titleCandidates).getD ""
  ∧ startOf P r = firstParsedSpec P r startCandidates := by
  constructor
  · have base : (getKey r "titulo").getD "" = (firstNonEmptySpec r ["titulo"]).getD "" := by
      cases h : getKey r "titulo" with
      | none => simp [firstNonEmptySpec, h]
      | some v => by_cases hv : v = "" <;> simp [firstNonEmptySpec, h, hv]
    have step2 : (jsOrStr (getKey r "Evento") (getKey r "titulo")).getD "" =
        (firstNonEmptySpec r ["Evento", "titulo"]).getD "" := by
      cases h : getKey r "Evento" with
      | none => simpa [jsOrStr, firstNonEmptySpec, h] using base
      | some v =>
        by_cases hv : v = ""
        · simpa [jsOrStr, firstNonEmptySpec, h, hv] using base
        · simp [jsOrStr, firstNonEmptySpec, h, hv]
    show (jsOrStr (getKey r "Evento/titulo")
        (jsOrStr (getKey r "Evento") (getKey r "titulo"))).getD "" = _
    cases h : getKey r "Evento/titulo" with
    | none => simpa [jsOrStr, firstNonEmptySpec, titleCandidates, h] using step2
    | some v =>
      by_cases hv : v = ""
      · simpa [jsOrStr, firstNonEmptySpec, titleCandidates, h, hv] using step2
      · simp [jsOrStr, firstNonEmptySpec, titleCandidates, h, hv]
  · simp only [startOf, startCandidates, firstParsedSpec]
    cases parseDate P (getKey r "Timestamp Inicio") with
    | some d => rfl
    | none =>
      cases parseDate P (getKey r "Timestamp inicio") with
      | some d => rfl
      | none =>
        cases parseDate P (getKey r "Inicio") with
        | some d => rfl
        | none => rfl
